import Mathlib

/-! Containment of external objects, from src/c/include/papyrus.h.

A shallow embedding of the generic utilities of that header:
`deletePointer`, `registerDeleteClass`, `ContainedExternal` (constructor and
destructor), `containedExternalForeach` and `registerContainedClass`.

C++ state is made explicit.  A `World` carries

* the reference count of every Lean heap object (`m_rc`),
* the native memory: which addresses hold a live object of a native class `T`
  and which hold a live `ContainedExternal<T>` (with its two fields),
* the table of registered external classes,
* a chronological trace of the observable events (native destructions,
  `lean_dec_ref` calls, `lean_apply_1` calls).

Operations whose C++ behaviour is undefined on some input (deleting something
that is not a live object of the stated type, reading through a pointer that
does not point to a `ContainedExternal<T>`) return `none` there.

Native classes `T` are the toolkit classes the header is instantiated with;
their destructors are atomic events that do not touch the Lean heap.
-/

namespace papyrus

/-- Address of a Lean heap object (`lean::object*`). -/
abbrev ObjPtr := Nat

/-- A native address (`void*`, `T*`, `ContainedExternal<T>*`). -/
abbrev Addr := Nat

/-- The null native pointer. -/
def nullptr : Addr := 0

/-- Identifier of a native class, the template argument `T`. -/
abbrev Kind := Nat

/-- The fields of `struct ContainedExternal<T>` (lines 63-68): the Lean object
of the container and the `std::unique_ptr<T>` handle of the external value
(`nullptr` when empty). -/
structure ContainedExternal where
  container : ObjPtr
  value : Addr
deriving DecidableEq

/-- What a live native address holds: an object of native class `T`, or a
`ContainedExternal<T>`. -/
inductive Cell where
  | native (T : Kind)
  | contained (T : Kind) (d : ContainedExternal)
deriving DecidableEq

/-- The types `deletePointer` is instantiated at in this header: a native
class `T` (by `registerDeleteClass<T>`) or `ContainedExternal<T>` (by
`registerContainedClass<T>`). -/
inductive CType where
  | native (T : Kind)
  | contained (T : Kind)
deriving DecidableEq

/-- Observable events, in the order they happen. -/
inductive Event where
  | destroy (T : Kind) (v : Addr)
  | dec_ref (o : ObjPtr)
  | apply_1 (a : ObjPtr) (o : ObjPtr)
deriving DecidableEq

/-- The finalizer function pointers this header passes to
`lean_register_external_class`: `&deletePointer<T>`. -/
inductive FinalizeFn where
  | deletePointer (T : CType)
deriving DecidableEq

/-- The foreach function pointers this header passes to
`lean_register_external_class`: `&nopForeach` and
`&containedExternalForeach<T>`. -/
inductive ForeachFn where
  | nopForeach
  | containedExternalForeach (T : Kind)
deriving DecidableEq

/-- Modelled from the spec: the host's class descriptor
(`lean::external_object_class`, from `lean/object.h`, which is not among the
sources): a pair of callbacks, a finalizer and a tracer. -/
structure external_object_class where
  m_finalize : FinalizeFn
  m_foreach : ForeachFn
deriving DecidableEq

/-- The state the header's functions act on. -/
structure World where
  rc : ObjPtr → Nat
  mem : Addr → Option Cell
  registry : List external_object_class
  trace : List Event

/-- Pointwise update of a map on addresses. -/
def update {α : Type} (f : Nat → α) (a : Nat) (v : α) : Nat → α :=
  fun x => if x = a then v else f x

/-- Modelled from the spec: the host's release primitive `lean_dec_ref`
(`lean/object.h`, not among the sources).  The spec treats it as a black box
that decrements the object's reference count; the host finalizes an object
whose count has reached zero in its own collection step, which is not part of
this header. -/
def lean_dec_ref (o : ObjPtr) (w : World) : World :=
  { w with rc := update w.rc o (w.rc o - 1), trace := w.trace ++ [Event.dec_ref o] }

/-- Modelled from the spec: the host's `lean_apply_1(a, o)` (`lean/object.h`,
not among the sources): the visitor closure `a` is applied to `o`.  What the
visitor does belongs to the host's collector; the application is recorded. -/
def lean_apply_1 (a : ObjPtr) (o : ObjPtr) (w : World) : World :=
  { w with trace := w.trace ++ [Event.apply_1 a o] }

/-- Modelled from the spec: `lean_register_external_class(finalize, foreach)`
(`lean/object.h`, not among the sources) creates a descriptor holding the two
callbacks, adds it to the process-wide table and returns it. -/
def lean_register_external_class (f : FinalizeFn) (g : ForeachFn) (w : World) :
    external_object_class × World :=
  (⟨f, g⟩, { w with registry := w.registry ++ [⟨f, g⟩] })

/-- The expression `delete static_cast<T*>(v)` for a native class `T`
(line 36, and the deleter of `std::unique_ptr<T>`): nothing for a null
pointer; otherwise `v` must hold a live `T`, which is destroyed. -/
def deleteNative (T : Kind) (v : Addr) (w : World) : Option World :=
  if v = nullptr then some w
  else
    match w.mem v with
    | some (Cell.native T') =>
      if T' = T then
        some { w with mem := update w.mem v none, trace := w.trace ++ [Event.destroy T v] }
      else none
    | _ => none

/-- Reading `*static_cast<ContainedExternal<T>*>(p)`. -/
def World.load (w : World) (T : Kind) (p : Addr) : Option ContainedExternal :=
  match w.mem p with
  | some (Cell.contained T' d) => if T' = T then some d else none
  | _ => none

/-- The constructor (lines 53-54),
`ContainedExternal(lean::object* container, std::unique_ptr<T> value)
  : container(container), value(std::move(value)) {}`,
run on the storage `self` that `new` obtained for it (non-null and holding no
live object; anything else is outside the model): both fields are initialised
from the arguments and nothing else happens; the body is empty. -/
def ContainedExternal.construct (T : Kind) (self : Addr) (container : ObjPtr) (value : Addr)
    (w : World) : Option World :=
  if self = nullptr then none
  else
    match w.mem self with
    | none => some { w with mem := update w.mem self (some (Cell.contained T ⟨container, value⟩)) }
    | some _ => none

/-- Line 59, `value = nullptr;`: the `unique_ptr` stores null and then deletes
the pointer it held, if that was not null. -/
def ContainedExternal.resetValue (T : Kind) (self : Addr) (w : World) : Option World :=
  (w.load T self).bind fun d =>
    deleteNative T d.value
      { w with mem := update w.mem self (some (Cell.contained T ⟨d.container, nullptr⟩)) }

/-- Line 60, `lean_dec_ref(container);`. -/
def ContainedExternal.releaseContainer (T : Kind) (self : Addr) (w : World) : Option World :=
  (w.load T self).bind fun d => some (lean_dec_ref d.container w)

/-- The implicit end of the destructor: the members are destroyed in reverse
order of declaration, `value` (its `unique_ptr` deletes a non-null pointer)
and then `container` (a raw pointer, nothing to do). -/
def ContainedExternal.destroyMembers (T : Kind) (self : Addr) (w : World) : Option World :=
  (w.load T self).bind fun d => deleteNative T d.value w

/-- The destructor `~ContainedExternal()` (lines 58-61) on the object at
`self`: the two statements of its body, then the members. -/
def ContainedExternal.destructor (T : Kind) (self : Addr) (w : World) : Option World :=
  (ContainedExternal.resetValue T self w).bind fun w1 =>
    (ContainedExternal.releaseContainer T self w1).bind fun w2 =>
      ContainedExternal.destroyMembers T self w2

/-- The template `deletePointer<T>(void* p)` (lines 34-37),
`delete static_cast<T*>(p);`.  For `ContainedExternal<T>` a non-null pointer
has its destructor run and its storage released. -/
def deletePointer (T : CType) (p : Addr) (w : World) : Option World :=
  match T with
  | CType.native K => deleteNative K p w
  | CType.contained K =>
    if p = nullptr then some w
    else (ContainedExternal.destructor K p w).map fun w1 =>
      { w1 with mem := update w1.mem p none }

/-- Modelled from the spec: the body of `nopForeach` (declared on line 31,
defined in a file that is not among the sources): a no-op callback. -/
def nopForeach (_p : Addr) (_a : ObjPtr) (w : World) : Option World :=
  some w

/-- The template `containedExternalForeach<T>(void* p, lean::b_obj_arg a)`
(lines 72-76): `lean_apply_1(a, d->container)` for
`d = static_cast<ContainedExternal<T>*>(p)`. -/
def containedExternalForeach (T : Kind) (p : Addr) (a : ObjPtr) (w : World) : Option World :=
  (w.load T p).bind fun d => some (lean_apply_1 a d.container w)

/-- The template `registerDeleteClass<T>()` (lines 41-44). -/
def registerDeleteClass (T : CType) (w : World) : external_object_class × World :=
  lean_register_external_class (FinalizeFn.deletePointer T) ForeachFn.nopForeach w

/-- The template `registerContainedClass<T>()` (lines 80-83). -/
def registerContainedClass (T : Kind) (w : World) : external_object_class × World :=
  lean_register_external_class (FinalizeFn.deletePointer (CType.contained T))
    (ForeachFn.containedExternalForeach T) w

/-- Calling a finalizer function pointer. -/
def FinalizeFn.call : FinalizeFn → Addr → World → Option World
  | FinalizeFn.deletePointer T, p, w => papyrus.deletePointer T p w

/-- Calling a foreach function pointer. -/
def ForeachFn.call : ForeachFn → Addr → ObjPtr → World → Option World
  | ForeachFn.nopForeach, p, a, w => papyrus.nopForeach p a w
  | ForeachFn.containedExternalForeach T, p, a, w => papyrus.containedExternalForeach T p a w

/-- Running `containedExternalForeach<T>(p, a)` `n` times in a row. -/
def foreachTimes (T : Kind) (p : Addr) (a : ObjPtr) : Nat → World → Option World
  | 0, w => some w
  | n + 1, w => (containedExternalForeach T p a w).bind (foreachTimes T p a n)

/-- The address `p` holds a valid contained handle with fields `d`: it is a
live `ContainedExternal<T>` whose owned value is null or a live `T`. -/
def World.holds (w : World) (T : Kind) (p : Addr) (d : ContainedExternal) : Prop :=
  p ≠ nullptr ∧ w.mem p = some (Cell.contained T d) ∧
    (d.value = nullptr ∨ w.mem d.value = some (Cell.native T))

/-- The address `p` holds a live contained handle whose container is `C`. -/
def World.handleOn (w : World) (C : ObjPtr) (p : Addr) : Bool :=
  match w.mem p with
  | some (Cell.contained _ d) => decide (d.container = C)
  | _ => false

/-- The events a run added to the trace. -/
def eventsSince (w : World) (w1 : World) : List Event :=
  w1.trace.drop w.trace.length

/-- The events of destroying the value held by a `unique_ptr<T>`. -/
def destroyEvents (T : Kind) (v : Addr) : List Event :=
  if v = nullptr then [] else [Event.destroy T v]

/-- The `lean_dec_ref` targets among a list of events. -/
def decRefs : List Event → List ObjPtr
  | [] => []
  | Event.dec_ref o :: es => o :: decRefs es
  | _ :: es => decRefs es

/-- The destroyed native values among a list of events. -/
def destroyed : List Event → List Addr
  | [] => []
  | Event.destroy _ v :: es => v :: destroyed es
  | _ :: es => destroyed es

/-- The objects the visitor `a` was applied to, among a list of events. -/
def appliedTo (a : ObjPtr) : List Event → List ObjPtr
  | [] => []
  | Event.apply_1 b o :: es => if b = a then o :: appliedTo a es else appliedTo a es
  | _ :: es => appliedTo a es

/-- A step of a history of contained handles: a construction or a
finalization (the finalizer registered by `registerContainedClass<T>`). -/
inductive Op where
  | construct (T : Kind) (p : Addr) (container : ObjPtr) (value : Addr)
  | finalize (T : Kind) (p : Addr)
deriving DecidableEq

/-- One step of a history. -/
def Op.step (w : World) : Op → Option World
  | Op.construct T p c v => ContainedExternal.construct T p c v w
  | Op.finalize T p => (registerContainedClass T w).1.m_finalize.call p w

/-- A whole history, left to right. -/
def run (w : World) : List Op → Option World
  | [] => some w
  | op :: ops => (Op.step w op).bind fun w1 => run w1 ops

/-- Number of constructions on container `C` in a history. -/
def constructionsOn (C : ObjPtr) : List Op → Nat
  | [] => 0
  | Op.construct _ _ c _ :: ops => (if c = C then 1 else 0) + constructionsOn C ops
  | Op.finalize _ _ :: ops => constructionsOn C ops

/-- The count of `C` covers every duplicate-free list of live contained handles
on `C`, with `k` to spare. -/
def Covers (C : ObjPtr) (w : World) (k : Nat) : Prop :=
  ∀ ps : List Addr, ps.Nodup → (∀ p ∈ ps, w.handleOn C p = true) → ps.length + k ≤ w.rc C

/-- A small concrete world: object `7` has reference count `2`, every other
object `1`; addresses `100` and `101` hold live objects of native class `0`;
nothing else is allocated. -/
def sampleWorld : World :=
  { rc := fun o => if o = 7 then 2 else 1
    mem := fun a => if a = 100 ∨ a = 101 then some (Cell.native 0) else none
    registry := []
    trace := [] }

/-- The sample world with two contained handles on object `7`: at `200`
owning the value at `100`, and at `201` owning the value at `101`. -/
def handleWorld : World :=
  { rc := fun o => if o = 7 then 2 else 1
    mem := fun a =>
      if a = 100 ∨ a = 101 then some (Cell.native 0)
      else if a = 200 then some (Cell.contained 0 ⟨7, 100⟩)
      else if a = 201 then some (Cell.contained 0 ⟨7, 101⟩)
      else none
    registry := []
    trace := [] }

/-- A sample history: two handles are constructed and the first is finalized. -/
def sampleHistory (C : ObjPtr) : List Op :=
  [Op.construct 0 200 C 100, Op.construct 0 201 C 101, Op.finalize 0 200]

instance World.holdsDecidable (w : World) (T : Kind) (p : Addr) (d : ContainedExternal) :
    Decidable (w.holds T p d) := by
  unfold World.holds
  infer_instance

/-! ## Basic facts about the operations -/

theorem update_same {α : Type} (f : Nat → α) (a : Nat) (v : α) : update f a v a = v := by
  simp [update]

theorem update_other {α : Type} (f : Nat → α) (a : Nat) (v : α) (x : Nat) (h : x ≠ a) :
    update f a v x = f x := by
  simp [update, h]

theorem load_of_mem (w : World) (T : Kind) (p : Addr) (d : ContainedExternal)
    (h : w.mem p = some (Cell.contained T d)) : w.load T p = some d := by
  simp [World.load, h]

theorem mem_of_load (w : World) (T : Kind) (p : Addr) (d : ContainedExternal)
    (h : w.load T p = some d) : w.mem p = some (Cell.contained T d) := by
  unfold World.load at h
  split at h
  · rename_i T1 d1 hm
    by_cases hT : T1 = T
    · simp [hT] at h
      rw [hm, hT, h]
    · simp [hT] at h
  · simp at h

/-- Effect of `delete` on a null pointer or a live native object. -/
theorem deleteNative_spec (T : Kind) (v : Addr) (w : World)
    (hv : v = nullptr ∨ w.mem v = some (Cell.native T)) :
    ∃ w1, deleteNative T v w = some w1 ∧ w1.rc = w.rc ∧ w1.registry = w.registry ∧
      w1.trace = w.trace ++ destroyEvents T v ∧
      (v ≠ nullptr → w1.mem v = none) ∧
      (∀ q, (q ≠ v ∨ v = nullptr) → w1.mem q = w.mem q) := by
  by_cases h0 : v = nullptr
  · refine ⟨w, ?_, rfl, rfl, ?_, ?_, ?_⟩
    · simp [deleteNative, h0]
    · simp [destroyEvents, h0]
    · intro h; exact absurd h0 h
    · intro q _; rfl
  · have hm : w.mem v = some (Cell.native T) := by
      rcases hv with h | h
      · exact absurd h h0
      · exact h
    refine ⟨{ w with mem := update w.mem v none, trace := w.trace ++ [Event.destroy T v] },
      ?_, rfl, rfl, ?_, ?_, ?_⟩
    · simp [deleteNative, h0, hm]
    · simp [destroyEvents, h0]
    · intro _; exact update_same _ _ _
    · intro q hq
      rcases hq with hq | hq
      · exact update_other _ _ _ _ hq
      · exact absurd hq h0

/-- Line 59 on a valid handle: the value is destroyed (if any), the stored
pointer is null afterwards, no reference count has changed yet. -/
theorem resetValue_spec (T : Kind) (p : Addr) (d : ContainedExternal) (w : World)
    (h : w.holds T p d) :
    ∃ w1, ContainedExternal.resetValue T p w = some w1 ∧ w1.rc = w.rc ∧
      w1.registry = w.registry ∧
      w1.trace = w.trace ++ destroyEvents T d.value ∧
      w1.mem p = some (Cell.contained T ⟨d.container, nullptr⟩) ∧
      (d.value ≠ nullptr → w1.mem d.value = none) ∧
      (∀ q, q ≠ p → (q ≠ d.value ∨ d.value = nullptr) → w1.mem q = w.mem q) := by
  obtain ⟨_, hm, hv⟩ := h
  have hpv : d.value = nullptr ∨ p ≠ d.value := by
    rcases hv with hv | hv
    · exact Or.inl hv
    · right
      intro he
      rw [← he, hm] at hv
      simp at hv
  let w0 : World :=
    { w with mem := update w.mem p (some (Cell.contained T ⟨d.container, nullptr⟩)) }
  have hv0 : d.value = nullptr ∨ w0.mem d.value = some (Cell.native T) := by
    rcases hv with hv | hv
    · exact Or.inl hv
    · right
      have hp : d.value ≠ p := by
        intro he
        rw [he, hm] at hv
        simp at hv
      show update w.mem p _ d.value = _
      rw [update_other _ _ _ _ hp]; exact hv
  obtain ⟨w1, he, hrc, hreg, htr, hdel, hfr⟩ := deleteNative_spec T d.value w0 hv0
  refine ⟨w1, ?_, hrc, hreg, htr, ?_, hdel, ?_⟩
  · simp only [ContainedExternal.resetValue, load_of_mem w T p d hm, Option.some_bind]
    exact he
  · have hq : p ≠ d.value ∨ d.value = nullptr := by
      rcases hpv with hz | hne
      · exact Or.inr hz
      · exact Or.inl hne
    rw [hfr p hq]
    exact update_same _ _ _
  · intro q hqp hq
    rw [hfr q hq]
    exact update_other _ _ _ _ hqp

/-- The destructor on a valid handle, with the state between its two
statements made explicit. -/
theorem destructor_spec (T : Kind) (p : Addr) (d : ContainedExternal) (w : World)
    (h : w.holds T p d) :
    ∃ w1 w2, ContainedExternal.resetValue T p w = some w1 ∧
      ContainedExternal.releaseContainer T p w1 = some w2 ∧
      ContainedExternal.destroyMembers T p w2 = some w2 ∧
      ContainedExternal.destructor T p w = some w2 ∧
      w1.rc = w.rc ∧
      w1.trace = w.trace ++ destroyEvents T d.value ∧
      w1.mem p = some (Cell.contained T ⟨d.container, nullptr⟩) ∧
      w2 = lean_dec_ref d.container w1 ∧
      w2.registry = w.registry ∧
      (d.value ≠ nullptr → w2.mem d.value = none) ∧
      (∀ q, q ≠ p → (q ≠ d.value ∨ d.value = nullptr) → w2.mem q = w.mem q) := by
  obtain ⟨w1, he, hrc, hreg, htr, hp, hdel, hfr⟩ := resetValue_spec T p d w h
  have hl1 : w1.load T p = some ⟨d.container, nullptr⟩ := load_of_mem _ _ _ _ hp
  have hrel : ContainedExternal.releaseContainer T p w1 = some (lean_dec_ref d.container w1) := by
    simp [ContainedExternal.releaseContainer, hl1]
  have hl2 : (lean_dec_ref d.container w1).load T p = some ⟨d.container, nullptr⟩ :=
    load_of_mem _ _ _ _ hp
  have hmem : ContainedExternal.destroyMembers T p (lean_dec_ref d.container w1)
      = some (lean_dec_ref d.container w1) := by
    simp [ContainedExternal.destroyMembers, hl2, deleteNative]
  refine ⟨w1, lean_dec_ref d.container w1, he, hrel, hmem, ?_, hrc, htr, hp, rfl, hreg, hdel, hfr⟩
  simp [ContainedExternal.destructor, he, hrel, hmem]

/-- The finalizer of a contained class on a valid handle. -/
theorem deletePointer_contained_spec (T : Kind) (p : Addr) (d : ContainedExternal) (w : World)
    (h : w.holds T p d) :
    ∃ w2, deletePointer (CType.contained T) p w = some w2 ∧
      w2.rc = update w.rc d.container (w.rc d.container - 1) ∧
      w2.registry = w.registry ∧
      w2.trace = w.trace ++ (destroyEvents T d.value ++ [Event.dec_ref d.container]) ∧
      w2.mem p = none ∧
      (d.value ≠ nullptr → w2.mem d.value = none) ∧
      (∀ q, q ≠ p → (q ≠ d.value ∨ d.value = nullptr) → w2.mem q = w.mem q) := by
  obtain ⟨w1, w2, _, _, _, hd, hrc, htr, _, hw2, hreg, hdel, hfr⟩ := destructor_spec T p d w h
  have hp0 : p ≠ nullptr := h.1
  refine ⟨{ w2 with mem := update w2.mem p none }, ?_, ?_, hreg, ?_, update_same _ _ _, ?_, ?_⟩
  · simp [deletePointer, hp0, hd]
  · show w2.rc = _
    rw [hw2]; simp [lean_dec_ref, hrc]
  · show w2.trace = _
    rw [hw2]; simp [lean_dec_ref, htr]
  · intro hv
    show update w2.mem p none d.value = none
    by_cases hp : d.value = p
    · rw [hp]; exact update_same _ _ _
    · rw [update_other _ _ _ _ hp]; exact hdel hv
  · intro q hqp hq
    show update w2.mem p none q = _
    rw [update_other _ _ _ _ hqp]; exact hfr q hqp hq

theorem eventsSince_of_trace (w w1 : World) (es : List Event) (h : w1.trace = w.trace ++ es) :
    eventsSince w w1 = es := by
  simp [eventsSince, h]

theorem decRefs_append (xs ys : List Event) : decRefs (xs ++ ys) = decRefs xs ++ decRefs ys := by
  induction xs with
  | nil => rfl
  | cons e es ih => cases e <;> simp [decRefs, ih]

theorem destroyed_append (xs ys : List Event) :
    destroyed (xs ++ ys) = destroyed xs ++ destroyed ys := by
  induction xs with
  | nil => rfl
  | cons e es ih => cases e <;> simp [destroyed, ih]

theorem decRefs_destroyEvents (T : Kind) (v : Addr) : decRefs (destroyEvents T v) = [] := by
  unfold destroyEvents
  split <;> rfl

theorem destroyed_destroyEvents (T : Kind) (v : Addr) :
    destroyed (destroyEvents T v) = if v = nullptr then [] else [v] := by
  unfold destroyEvents
  split <;> rfl

/-- The constructor on fresh storage. -/
theorem construct_spec (T : Kind) (p : Addr) (C : ObjPtr) (v : Addr) (w : World)
    (hp : p ≠ nullptr) (hfresh : w.mem p = none) :
    ContainedExternal.construct T p C v w =
      some { w with mem := update w.mem p (some (Cell.contained T ⟨C, v⟩)) } := by
  simp [ContainedExternal.construct, hp, hfresh]

/-- A handle built on fresh storage over a null or live value is valid. -/
theorem holds_after_construct (T : Kind) (p : Addr) (C : ObjPtr) (v : Addr) (w : World)
    (hp : p ≠ nullptr) (hfresh : w.mem p = none)
    (hv : v = nullptr ∨ w.mem v = some (Cell.native T)) :
    World.holds { w with mem := update w.mem p (some (Cell.contained T ⟨C, v⟩)) } T p ⟨C, v⟩ := by
  refine ⟨hp, update_same _ _ _, ?_⟩
  rcases hv with hv | hv
  · exact Or.inl hv
  · right
    have hne : v ≠ p := by
      intro he
      rw [he, hfresh] at hv
      simp at hv
    show update w.mem p _ v = _
    rw [update_other _ _ _ _ hne]; exact hv

/-! ## The claims -/

/-- C2, as stated, fails: in the sample world object `7` has count `2`;
constructing a contained handle over container `7` and value `100` at address
`200` succeeds and the count of `7` is still `2`, not `3`. -/
theorem construct_acquires_counterexample :
    ∃ w1, ContainedExternal.construct 0 200 7 100 sampleWorld = some w1 ∧
      sampleWorld.rc 7 = 2 ∧ w1.rc 7 = 2 ∧ w1.rc 7 ≠ sampleWorld.rc 7 + 1 := by
  refine ⟨_, construct_spec 0 200 7 100 sampleWorld (by decide) (by decide), ?_, ?_, ?_⟩ <;>
    decide

/-- C2 (amended): constructing a contained handle over `(C, v)` on fresh
storage `p` succeeds, leaves every reference count (that of `C` included)
exactly as it was, performs no event, and the new handle stores `C` as its
container and `v` as its owned value; no other native cell changes. -/
theorem construct_stores_without_acquiring (T : Kind) (p : Addr) (C : ObjPtr) (v : Addr)
    (w : World) (hp : p ≠ nullptr) (hfresh : w.mem p = none) :
    ∃ w1, ContainedExternal.construct T p C v w = some w1 ∧
      w1.rc C = w.rc C ∧ w1.rc = w.rc ∧ w1.trace = w.trace ∧
      w1.load T p = some ⟨C, v⟩ ∧
      (∀ q, q ≠ p → w1.mem q = w.mem q) := by
  refine ⟨_, construct_spec T p C v w hp hfresh, rfl, rfl, rfl, ?_, ?_⟩
  · exact load_of_mem _ _ _ _ (update_same _ _ _)
  · intro q hq
    exact update_other _ _ _ _ hq

/-- Witness for C2 (amended), in the sample world. -/
theorem construct_stores_without_acquiring_witness :
    (200 : Addr) ≠ nullptr ∧ sampleWorld.mem 200 = none ∧
    ∃ w1, ContainedExternal.construct 0 200 7 100 sampleWorld = some w1 ∧
      w1.rc 7 = sampleWorld.rc 7 ∧ w1.rc = sampleWorld.rc ∧ w1.trace = sampleWorld.trace ∧
      w1.load 0 200 = some ⟨7, 100⟩ ∧
      (∀ q, q ≠ 200 → w1.mem q = sampleWorld.mem q) :=
  ⟨by decide, by decide,
    construct_stores_without_acquiring 0 200 7 100 sampleWorld (by decide) (by decide)⟩

/-- C3: on a valid contained handle `D` at `p` whose container `C` is live, one
run of the finalizer registered by `registerContainedClass<T>` succeeds and
performs exactly one `lean_dec_ref`, on `C`: the count of `C` drops by exactly
one and the count of every other object is unchanged. -/
theorem finalizer_releases_container_once (T : Kind) (p : Addr) (d : ContainedExternal)
    (w0 w : World) (h : w.holds T p d) (hlive : 0 < w.rc d.container) :
    ∃ w2, (registerContainedClass T w0).1.m_finalize.call p w = some w2 ∧
      decRefs (eventsSince w w2) = [d.container] ∧
      w2.rc d.container + 1 = w.rc d.container ∧
      (∀ o, o ≠ d.container → w2.rc o = w.rc o) := by
  obtain ⟨w2, he, hrc, _, htr, _, _, _⟩ := deletePointer_contained_spec T p d w h
  refine ⟨w2, he, ?_, ?_, ?_⟩
  · rw [eventsSince_of_trace w w2 _ htr, decRefs_append, decRefs_destroyEvents]
    rfl
  · rw [hrc, update_same]
    omega
  · intro o ho
    rw [hrc, update_other _ _ _ _ ho]

/-- Witness for C3: the handle at `200` of the sample world. -/
theorem finalizer_releases_container_once_witness :
    handleWorld.holds 0 200 ⟨7, 100⟩ ∧ 0 < handleWorld.rc 7 ∧
    ∃ w2, (registerContainedClass 0 sampleWorld).1.m_finalize.call 200 handleWorld = some w2 ∧
      decRefs (eventsSince handleWorld w2) = [7] ∧
      w2.rc 7 + 1 = handleWorld.rc 7 ∧
      (∀ o, o ≠ 7 → w2.rc o = handleWorld.rc o) :=
  ⟨by decide, by decide,
    finalizer_releases_container_once 0 200 ⟨7, 100⟩ sampleWorld handleWorld
      (by decide) (by decide)⟩

/-- C4, as stated, fails: in the sample world object `7` has count `2`;
constructing a contained handle over `(7, 100)` at `200` and then finalizing
it leaves the count of `7` at `1`, not at its value before the construction. -/
theorem construct_finalize_balance_counterexample :
    ∃ w2, (ContainedExternal.construct 0 200 7 100 sampleWorld).bind
        (deletePointer (CType.contained 0) 200) = some w2 ∧
      sampleWorld.rc 7 = 2 ∧ w2.rc 7 = 1 ∧ w2.rc 7 ≠ sampleWorld.rc 7 := by
  obtain ⟨w2, he, hrc, _⟩ := deletePointer_contained_spec 0 200 ⟨7, 100⟩ _
    (holds_after_construct 0 200 7 100 sampleWorld (by decide) (by decide)
      (Or.inr (by decide)))
  refine ⟨w2, ?_, by decide, ?_, ?_⟩
  · rw [construct_spec 0 200 7 100 sampleWorld (by decide) (by decide)]
    exact he
  · rw [hrc]; decide
  · rw [hrc]; decide

/-- C4 (amended): constructing a contained handle over a live container `C` and
then finalizing it both succeed and leave the count of `C` exactly one below
its value before the construction: the constructor acquires nothing and the
finalizer releases one reference (the one the handle took over from its
creator).  The count of every other object is unchanged. -/
theorem construct_finalize_releases_one (T : Kind) (p : Addr) (C : ObjPtr) (v : Addr)
    (w : World) (hp : p ≠ nullptr) (hfresh : w.mem p = none)
    (hv : v = nullptr ∨ w.mem v = some (Cell.native T)) (hlive : 0 < w.rc C) :
    ∃ w1 w2, ContainedExternal.construct T p C v w = some w1 ∧
      deletePointer (CType.contained T) p w1 = some w2 ∧
      w1.rc C = w.rc C ∧
      w2.rc C + 1 = w.rc C ∧
      (∀ o, o ≠ C → w2.rc o = w.rc o) := by
  obtain ⟨w2, he, hrc, _⟩ := deletePointer_contained_spec T p ⟨C, v⟩ _
    (holds_after_construct T p C v w hp hfresh hv)
  refine ⟨_, w2, construct_spec T p C v w hp hfresh, he, rfl, ?_, ?_⟩
  · rw [hrc, update_same]
    show w.rc C - 1 + 1 = w.rc C
    omega
  · intro o ho
    rw [hrc, update_other _ _ _ _ ho]

/-- Witness for C4 (amended), in the sample world. -/
theorem construct_finalize_releases_one_witness :
    (200 : Addr) ≠ nullptr ∧ sampleWorld.mem 200 = none ∧
    ((100 : Addr) = nullptr ∨ sampleWorld.mem 100 = some (Cell.native 0)) ∧
    0 < sampleWorld.rc 7 ∧
    ∃ w1 w2, ContainedExternal.construct 0 200 7 100 sampleWorld = some w1 ∧
      deletePointer (CType.contained 0) 200 w1 = some w2 ∧
      w1.rc 7 = sampleWorld.rc 7 ∧
      w2.rc 7 + 1 = sampleWorld.rc 7 ∧
      (∀ o, o ≠ 7 → w2.rc o = sampleWorld.rc o) :=
  ⟨by decide, by decide, by decide, by decide,
    construct_finalize_releases_one 0 200 7 100 sampleWorld (by decide) (by decide)
      (by decide) (by decide)⟩

/-- C5: on a valid contained handle, `~ContainedExternal` runs `value = nullptr`
first: after it the owned value (if any) has been destroyed, the stored pointer
is null and no reference count has changed.  Only then `lean_dec_ref(container)`
runs, in a state where the stored pointer is null, and adds the single release
event.  With a non-null value the events of the whole destructor are the
destruction of the value followed by the release of the container. -/
theorem destructor_destroys_then_releases (T : Kind) (p : Addr) (d : ContainedExternal)
    (w : World) (h : w.holds T p d) :
    ∃ w1 w2, ContainedExternal.resetValue T p w = some w1 ∧
      ContainedExternal.releaseContainer T p w1 = some w2 ∧
      ContainedExternal.destructor T p w = some w2 ∧
      eventsSince w w1 = destroyEvents T d.value ∧
      w1.rc = w.rc ∧
      w1.load T p = some ⟨d.container, nullptr⟩ ∧
      (d.value ≠ nullptr → w1.mem d.value = none) ∧
      eventsSince w1 w2 = [Event.dec_ref d.container] ∧
      eventsSince w w2 = destroyEvents T d.value ++ [Event.dec_ref d.container] ∧
      (d.value ≠ nullptr →
        eventsSince w w2 = [Event.destroy T d.value, Event.dec_ref d.container]) := by
  obtain ⟨w1, w2, he1, he2, _, hd, hrc, htr, hp, hw2, _, _, _⟩ := destructor_spec T p d w h
  obtain ⟨w1', he1', _, _, _, _, hdel, _⟩ := resetValue_spec T p d w h
  have hw : w1' = w1 := by
    rw [he1] at he1'
    exact (Option.some.inj he1').symm
  have htr2 : w2.trace = w.trace ++ (destroyEvents T d.value ++ [Event.dec_ref d.container]) := by
    rw [hw2]; simp [lean_dec_ref, htr]
  refine ⟨w1, w2, he1, he2, hd, eventsSince_of_trace w w1 _ htr, hrc,
    load_of_mem _ _ _ _ hp, ?_, ?_, eventsSince_of_trace w w2 _ htr2, ?_⟩
  · rw [← hw]; exact hdel
  · apply eventsSince_of_trace
    rw [hw2]; rfl
  · intro hv
    rw [eventsSince_of_trace w w2 _ htr2]
    simp [destroyEvents, hv]

/-- Witness for C5: the handle at `200` of the sample world. -/
theorem destructor_destroys_then_releases_witness :
    handleWorld.holds 0 200 ⟨7, 100⟩ ∧
    ∃ w1 w2, ContainedExternal.resetValue 0 200 handleWorld = some w1 ∧
      ContainedExternal.releaseContainer 0 200 w1 = some w2 ∧
      ContainedExternal.destructor 0 200 handleWorld = some w2 ∧
      eventsSince handleWorld w1 = destroyEvents 0 100 ∧
      w1.rc = handleWorld.rc ∧
      w1.load 0 200 = some ⟨7, nullptr⟩ ∧
      ((100 : Addr) ≠ nullptr → w1.mem 100 = none) ∧
      eventsSince w1 w2 = [Event.dec_ref 7] ∧
      eventsSince handleWorld w2 = destroyEvents 0 100 ++ [Event.dec_ref 7] ∧
      ((100 : Addr) ≠ nullptr →
        eventsSince handleWorld w2 = [Event.destroy 0 100, Event.dec_ref 7]) :=
  ⟨by decide, destructor_destroys_then_releases 0 200 ⟨7, 100⟩ handleWorld (by decide)⟩

/-- The tracer on any address holding a `ContainedExternal<T>`. -/
theorem foreach_spec (T : Kind) (p : Addr) (a : ObjPtr) (d : ContainedExternal) (w : World)
    (h : w.load T p = some d) :
    containedExternalForeach T p a w = some (lean_apply_1 a d.container w) := by
  simp [containedExternalForeach, h]

/-- C6: for a contained handle constructed at `p` with container `C`, one call
of `containedExternalForeach` with visitor `a` succeeds and its events are
exactly one application of `a`, to `C`.  More generally, in any state where `p`
holds a `ContainedExternal<T>`, one call applies the visitor exactly once, to
the stored container, and changes nothing else. -/
theorem foreach_visits_container_once (T : Kind) (p : Addr) (C : ObjPtr) (v : Addr)
    (a : ObjPtr) (w : World) (hp : p ≠ nullptr) (hfresh : w.mem p = none) :
    (∃ w1 w2, ContainedExternal.construct T p C v w = some w1 ∧
      containedExternalForeach T p a w1 = some w2 ∧
      eventsSince w1 w2 = [Event.apply_1 a C] ∧
      appliedTo a (eventsSince w1 w2) = [C]) ∧
    (∀ (u : World) (d : ContainedExternal), u.load T p = some d →
      ∃ u2, containedExternalForeach T p a u = some u2 ∧
        eventsSince u u2 = [Event.apply_1 a d.container] ∧
        appliedTo a (eventsSince u u2) = [d.container] ∧
        u2.mem = u.mem ∧ u2.rc = u.rc) := by
  have gen : ∀ (u : World) (d : ContainedExternal), u.load T p = some d →
      ∃ u2, containedExternalForeach T p a u = some u2 ∧
        eventsSince u u2 = [Event.apply_1 a d.container] ∧
        appliedTo a (eventsSince u u2) = [d.container] ∧
        u2.mem = u.mem ∧ u2.rc = u.rc := by
    intro u d hd
    have hev : eventsSince u (lean_apply_1 a d.container u) = [Event.apply_1 a d.container] :=
      eventsSince_of_trace _ _ _ rfl
    refine ⟨_, foreach_spec T p a d u hd, hev, ?_, rfl, rfl⟩
    rw [hev]
    simp [appliedTo]
  refine ⟨?_, gen⟩
  have hl : World.load { w with mem := update w.mem p (some (Cell.contained T ⟨C, v⟩)) } T p
      = some ⟨C, v⟩ := load_of_mem _ _ _ _ (update_same _ _ _)
  obtain ⟨u2, he, hev, hap, _, _⟩ := gen _ _ hl
  exact ⟨_, u2, construct_spec T p C v w hp hfresh, he, hev, hap⟩

/-- Witness for C6, in the sample world with visitor `9`. -/
theorem foreach_visits_container_once_witness :
    (200 : Addr) ≠ nullptr ∧ sampleWorld.mem 200 = none ∧
    ((∃ w1 w2, ContainedExternal.construct 0 200 7 100 sampleWorld = some w1 ∧
      containedExternalForeach 0 200 9 w1 = some w2 ∧
      eventsSince w1 w2 = [Event.apply_1 9 7] ∧
      appliedTo 9 (eventsSince w1 w2) = [7]) ∧
    (∀ (u : World) (d : ContainedExternal), u.load 0 200 = some d →
      ∃ u2, containedExternalForeach 0 200 9 u = some u2 ∧
        eventsSince u u2 = [Event.apply_1 9 d.container] ∧
        appliedTo 9 (eventsSince u u2) = [d.container] ∧
        u2.mem = u.mem ∧ u2.rc = u.rc)) :=
  ⟨by decide, by decide,
    foreach_visits_container_once 0 200 7 100 9 sampleWorld (by decide) (by decide)⟩

/-- C7: when the container `C` of a valid contained handle `D` at `p` is also
referenced by something else (its count is at least two), finalizing `D`
succeeds and destroys only `D`'s own value (nothing if that is null); the count
of `C` stays positive; every native cell other than `D`'s own storage and `D`'s
own value is unchanged, in particular the payload cell `pl` of `C`; and every
other contained handle keeps its stored container and value pointer, and its
owned object when that is not `D`'s. -/
theorem finalize_child_leaves_container_and_siblings (T : Kind) (p : Addr)
    (d : ContainedExternal) (w : World) (pl : Addr)
    (h : w.holds T p d) (hshared : 2 ≤ w.rc d.container)
    (hpl : pl ≠ p ∧ pl ≠ d.value) :
    ∃ w2, deletePointer (CType.contained T) p w = some w2 ∧
      destroyed (eventsSince w w2) = (if d.value = nullptr then [] else [d.value]) ∧
      0 < w2.rc d.container ∧
      w2.mem pl = w.mem pl ∧
      (∀ q, q ≠ p → (q ≠ d.value ∨ d.value = nullptr) → w2.mem q = w.mem q) ∧
      (∀ (q : Addr) (T1 : Kind) (d1 : ContainedExternal), q ≠ p →
        w.mem q = some (Cell.contained T1 d1) →
        w2.mem q = some (Cell.contained T1 d1) ∧
        (d1.value ≠ p → d1.value ≠ d.value → w2.mem d1.value = w.mem d1.value)) := by
  obtain ⟨w2, he, hrc, _, htr, _, _, hfr⟩ := deletePointer_contained_spec T p d w h
  refine ⟨w2, he, ?_, ?_, hfr pl hpl.1 (Or.inl hpl.2), hfr, ?_⟩
  · rw [eventsSince_of_trace w w2 _ htr, destroyed_append, destroyed_destroyEvents]
    simp [destroyed]
  · rw [hrc, update_same]
    omega
  · intro q T1 d1 hq hm
    constructor
    · rw [hfr q hq, hm]
      rcases h.2.2 with hv | hv
      · exact Or.inr hv
      · left
        intro heq
        rw [heq, hv] at hm
        simp at hm
    · intro h1 h2
      exact hfr _ h1 (Or.inl h2)

/-- Witness for C7: finalizing the handle at `200` of the sample world, whose
container `7` has count `2`, with sibling `201`. -/
theorem finalize_child_leaves_container_and_siblings_witness :
    handleWorld.holds 0 200 ⟨7, 100⟩ ∧ 2 ≤ handleWorld.rc 7 ∧
    ((300 : Addr) ≠ 200 ∧ (300 : Addr) ≠ 100) ∧
    ∃ w2, deletePointer (CType.contained 0) 200 handleWorld = some w2 ∧
      destroyed (eventsSince handleWorld w2) = (if (100 : Addr) = nullptr then [] else [100]) ∧
      0 < w2.rc 7 ∧
      w2.mem 300 = handleWorld.mem 300 ∧
      (∀ q, q ≠ 200 → (q ≠ 100 ∨ (100 : Addr) = nullptr) → w2.mem q = handleWorld.mem q) ∧
      (∀ (q : Addr) (T1 : Kind) (d1 : ContainedExternal), q ≠ 200 →
        handleWorld.mem q = some (Cell.contained T1 d1) →
        w2.mem q = some (Cell.contained T1 d1) ∧
        (d1.value ≠ 200 → d1.value ≠ 100 → w2.mem d1.value = handleWorld.mem d1.value)) :=
  ⟨by decide, by decide, by decide,
    finalize_child_leaves_container_and_siblings 0 200 ⟨7, 100⟩ handleWorld 300
      (by decide) (by decide) (by decide)⟩

/-- C8: `registerDeleteClass<T>` registers, and returns, the descriptor whose
finalizer is `deletePointer<T>` and whose tracer is `nopForeach`.  For a native
class `K`, one run of that finalizer on a live `K` object at `p` succeeds,
destroys it as a `K` exactly once (that is its only event), leaves it
deallocated and changes no reference count and no other cell; one run of the
tracer performs no event at all, so the visitor is applied zero times. -/
theorem registerDeleteClass_descriptor (T : CType) (K : Kind) (p : Addr) (a : ObjPtr)
    (w0 w : World) (hp : p ≠ nullptr) (hlive : w.mem p = some (Cell.native K)) :
    (registerDeleteClass T w0).1 = ⟨FinalizeFn.deletePointer T, ForeachFn.nopForeach⟩ ∧
    (registerDeleteClass T w0).2.registry = w0.registry ++ [(registerDeleteClass T w0).1] ∧
    (∃ w2, (registerDeleteClass (CType.native K) w0).1.m_finalize.call p w = some w2 ∧
      eventsSince w w2 = [Event.destroy K p] ∧
      destroyed (eventsSince w w2) = [p] ∧
      decRefs (eventsSince w w2) = [] ∧
      w2.rc = w.rc ∧ w2.mem p = none ∧ (∀ q, q ≠ p → w2.mem q = w.mem q)) ∧
    (∃ u2, (registerDeleteClass T w0).1.m_foreach.call p a w = some u2 ∧
      eventsSince w u2 = [] ∧ appliedTo a (eventsSince w u2) = [] ∧
      u2.rc = w.rc ∧ u2.mem = w.mem) := by
  refine ⟨rfl, rfl, ?_, ?_⟩
  · obtain ⟨w2, he, hrc, _, htr, hdel, hfr⟩ := deleteNative_spec K p w (Or.inr hlive)
    have hev : eventsSince w w2 = [Event.destroy K p] := by
      rw [eventsSince_of_trace w w2 _ htr]
      simp [destroyEvents, hp]
    refine ⟨w2, he, hev, ?_, ?_, hrc, hdel hp, ?_⟩
    · rw [hev]; rfl
    · rw [hev]; rfl
    · intro q hq
      exact hfr q (Or.inl hq)
  · have hev : eventsSince w w = [] := by simp [eventsSince]
    refine ⟨w, rfl, hev, ?_, rfl, rfl⟩
    rw [hev]; rfl

/-- Witness for C8: the native object at `100` of the sample world. -/
theorem registerDeleteClass_descriptor_witness :
    (100 : Addr) ≠ nullptr ∧ sampleWorld.mem 100 = some (Cell.native 0) ∧
    ((registerDeleteClass (CType.native 0) sampleWorld).1
        = ⟨FinalizeFn.deletePointer (CType.native 0), ForeachFn.nopForeach⟩ ∧
    (registerDeleteClass (CType.native 0) sampleWorld).2.registry
        = sampleWorld.registry ++ [(registerDeleteClass (CType.native 0) sampleWorld).1] ∧
    (∃ w2, (registerDeleteClass (CType.native 0) sampleWorld).1.m_finalize.call 100 sampleWorld
        = some w2 ∧
      eventsSince sampleWorld w2 = [Event.destroy 0 100] ∧
      destroyed (eventsSince sampleWorld w2) = [100] ∧
      decRefs (eventsSince sampleWorld w2) = [] ∧
      w2.rc = sampleWorld.rc ∧ w2.mem 100 = none ∧
      (∀ q, q ≠ 100 → w2.mem q = sampleWorld.mem q)) ∧
    (∃ u2, (registerDeleteClass (CType.native 0) sampleWorld).1.m_foreach.call 100 9 sampleWorld
        = some u2 ∧
      eventsSince sampleWorld u2 = [] ∧ appliedTo 9 (eventsSince sampleWorld u2) = [] ∧
      u2.rc = sampleWorld.rc ∧ u2.mem = sampleWorld.mem)) :=
  ⟨by decide, by decide,
    registerDeleteClass_descriptor (CType.native 0) 0 100 9 sampleWorld sampleWorld
      (by decide) (by decide)⟩

/-- C9: one finalization of a valid contained handle.  After the body of the
destructor the stored pointer is null, so the implicit destruction of the
`value` member deletes nothing (it leaves the state as it is).  If the owned
value was non-null it is destroyed exactly once in the whole finalization; if
it was null no native value is destroyed.  In both cases the container is
released exactly once. -/
theorem finalize_destroys_value_exactly_once (T : Kind) (p : Addr) (d : ContainedExternal)
    (w : World) (h : w.holds T p d) :
    ∃ w1 w2 w3, ContainedExternal.resetValue T p w = some w1 ∧
      ContainedExternal.releaseContainer T p w1 = some w2 ∧
      w2.load T p = some ⟨d.container, nullptr⟩ ∧
      ContainedExternal.destroyMembers T p w2 = some w2 ∧
      deletePointer (CType.contained T) p w = some w3 ∧
      (d.value ≠ nullptr →
        destroyed (eventsSince w w3) = [d.value] ∧
        (eventsSince w w3).count (Event.destroy T d.value) = 1 ∧
        w3.mem d.value = none) ∧
      (d.value = nullptr → destroyed (eventsSince w w3) = []) ∧
      decRefs (eventsSince w w3) = [d.container] := by
  obtain ⟨w1, w2, he1, he2, hm, _, _, _, hp, hw2, _, _, _⟩ := destructor_spec T p d w h
  obtain ⟨w3, he, _, _, htr, _, hdel, _⟩ := deletePointer_contained_spec T p d w h
  have hev := eventsSince_of_trace w w3 _ htr
  have hl2 : w2.load T p = some ⟨d.container, nullptr⟩ := by
    rw [hw2]; exact load_of_mem _ _ _ _ hp
  refine ⟨w1, w2, w3, he1, he2, hl2, hm, he, ?_, ?_, ?_⟩
  · intro hv
    refine ⟨?_, ?_, hdel hv⟩
    · rw [hev]; simp [destroyEvents, hv, destroyed]
    · rw [hev]; simp [destroyEvents, hv]
  · intro hv
    rw [hev]; simp [destroyEvents, hv, destroyed]
  · rw [hev, decRefs_append, decRefs_destroyEvents]; rfl

/-- Witness for C9: the handle at `200` of the sample world (non-null value). -/
theorem finalize_destroys_value_exactly_once_witness :
    handleWorld.holds 0 200 ⟨7, 100⟩ ∧
    ∃ w1 w2 w3, ContainedExternal.resetValue 0 200 handleWorld = some w1 ∧
      ContainedExternal.releaseContainer 0 200 w1 = some w2 ∧
      w2.load 0 200 = some ⟨7, nullptr⟩ ∧
      ContainedExternal.destroyMembers 0 200 w2 = some w2 ∧
      deletePointer (CType.contained 0) 200 handleWorld = some w3 ∧
      ((100 : Addr) ≠ nullptr →
        destroyed (eventsSince handleWorld w3) = [100] ∧
        (eventsSince handleWorld w3).count (Event.destroy 0 100) = 1 ∧
        w3.mem 100 = none) ∧
      ((100 : Addr) = nullptr → destroyed (eventsSince handleWorld w3) = []) ∧
      decRefs (eventsSince handleWorld w3) = [7] :=
  ⟨by decide, finalize_destroys_value_exactly_once 0 200 ⟨7, 100⟩ handleWorld (by decide)⟩

/-- Repeated tracing only extends the trace. -/
theorem foreachTimes_spec (T : Kind) (p : Addr) (a : ObjPtr) (d : ContainedExternal) (n : Nat) :
    ∀ w : World, w.load T p = some d →
      foreachTimes T p a n w =
        some { w with trace := w.trace ++ List.replicate n (Event.apply_1 a d.container) } := by
  induction n with
  | zero => intro w _; simp [foreachTimes]
  | succ n ih =>
    intro w h
    have h1 : (lean_apply_1 a d.container w).load T p = some d := h
    simp only [foreachTimes, foreach_spec T p a d w h, Option.some_bind, ih _ h1]
    simp [lean_apply_1, List.replicate_succ]

theorem appliedTo_replicate (a o : ObjPtr) (n : Nat) :
    appliedTo a (List.replicate n (Event.apply_1 a o)) = List.replicate n o := by
  induction n with
  | zero => rfl
  | succ n ih => simp [List.replicate_succ, appliedTo, ih]

/-- C10: on a valid contained handle `D` at `p`, `n` calls of
`containedExternalForeach` in a row all succeed and apply the visitor exactly
`n` times, each time to `D`'s container; the native memory (so `D`'s stored
container and value) and every reference count are unchanged.  Finalizing `D`
afterwards succeeds with the same events, the same memory and the same counts
as finalizing it with no tracing at all. -/
theorem foreach_repeatable_and_read_only (T : Kind) (p : Addr) (a : ObjPtr)
    (d : ContainedExternal) (n : Nat) (w : World) (h : w.holds T p d) :
    ∃ wn u un, foreachTimes T p a n w = some wn ∧
      eventsSince w wn = List.replicate n (Event.apply_1 a d.container) ∧
      appliedTo a (eventsSince w wn) = List.replicate n d.container ∧
      wn.mem = w.mem ∧ wn.rc = w.rc ∧
      wn.load T p = some d ∧
      deletePointer (CType.contained T) p w = some u ∧
      deletePointer (CType.contained T) p wn = some un ∧
      eventsSince wn un = eventsSince w u ∧
      un.mem = u.mem ∧ un.rc = u.rc := by
  have hl : w.load T p = some d := load_of_mem _ _ _ _ h.2.1
  let wn : World := { w with trace := w.trace ++ List.replicate n (Event.apply_1 a d.container) }
  have hn : wn.holds T p d := h
  obtain ⟨u, heu, hrcu, _, htru, hpu, hdu, hfu⟩ := deletePointer_contained_spec T p d w h
  obtain ⟨un, hen, hrcn, _, htrn, hpn, hdn, hfn⟩ := deletePointer_contained_spec T p d wn hn
  have hev : eventsSince w wn = List.replicate n (Event.apply_1 a d.container) :=
    eventsSince_of_trace w wn _ rfl
  refine ⟨wn, u, un, foreachTimes_spec T p a d n w hl, hev, ?_, rfl, rfl, hl, heu, hen, ?_, ?_, ?_⟩
  · rw [hev, appliedTo_replicate]
  · rw [eventsSince_of_trace wn un _ htrn, eventsSince_of_trace w u _ htru]
  · funext q
    by_cases hq : q = p
    · rw [hq, hpn, hpu]
    · by_cases hv : q ≠ d.value ∨ d.value = nullptr
      · rw [hfn q hq hv, hfu q hq hv]
      · have hqv : q = d.value := by
          by_contra hc
          exact hv (Or.inl hc)
        have hnz : d.value ≠ nullptr := fun hc => hv (Or.inr hc)
        rw [hqv, hdn hnz, hdu hnz]
  · rw [hrcn, hrcu]

/-- Witness for C10: three tracings of the handle at `200` of the sample
world by visitor `9`. -/
theorem foreach_repeatable_and_read_only_witness :
    handleWorld.holds 0 200 ⟨7, 100⟩ ∧
    ∃ wn u un, foreachTimes 0 200 9 3 handleWorld = some wn ∧
      eventsSince handleWorld wn = List.replicate 3 (Event.apply_1 9 7) ∧
      appliedTo 9 (eventsSince handleWorld wn) = List.replicate 3 7 ∧
      wn.mem = handleWorld.mem ∧ wn.rc = handleWorld.rc ∧
      wn.load 0 200 = some ⟨7, 100⟩ ∧
      deletePointer (CType.contained 0) 200 handleWorld = some u ∧
      deletePointer (CType.contained 0) 200 wn = some un ∧
      eventsSince wn un = eventsSince handleWorld u ∧
      un.mem = u.mem ∧ un.rc = u.rc :=
  ⟨by decide, foreach_repeatable_and_read_only 0 200 9 ⟨7, 100⟩ 3 handleWorld (by decide)⟩

/-! ## Histories of constructions and finalizations -/

theorem handleOn_congr (w w1 : World) (C : ObjPtr) (p : Addr) (h : w1.mem p = w.mem p) :
    w1.handleOn C p = w.handleOn C p := by
  simp [World.handleOn, h]

theorem handleOn_of_mem (w : World) (T : Kind) (p : Addr) (d : ContainedExternal)
    (h : w.mem p = some (Cell.contained T d)) :
    w.handleOn d.container p = true := by
  simp [World.handleOn, h]

theorem handleOn_mem_none (w : World) (C : ObjPtr) (p : Addr) (h : w.mem p = none) :
    w.handleOn C p = false := by
  simp [World.handleOn, h]

/-- A successful finalization of a non-null pointer was run on a valid handle. -/
theorem holds_of_deletePointer (T : Kind) (p : Addr) (w w1 : World) (hp : p ≠ nullptr)
    (h : deletePointer (CType.contained T) p w = some w1) : ∃ d, w.holds T p d := by
  simp only [deletePointer, hp, if_false, ContainedExternal.destructor,
    ContainedExternal.resetValue] at h
  cases hl : w.load T p with
  | none => simp [hl] at h
  | some d =>
    have hm := mem_of_load w T p d hl
    refine ⟨d, hp, hm, ?_⟩
    by_cases hv : d.value = nullptr
    · exact Or.inl hv
    · right
      simp only [hl, Option.some_bind, deleteNative, hv, if_false] at h
      by_cases hpv : d.value = p
      · simp [hpv, update_same] at h
      · rw [update_other _ _ _ _ hpv] at h
        cases hc : w.mem d.value with
        | none => simp [hc] at h
        | some c =>
          cases c with
          | contained T1 d1 => simp [hc] at h
          | native T1 =>
            by_cases hT : T1 = T
            · rw [hT]
            · simp [hc, hT] at h

/-- A construction on `C` uses up one spare reference; on another container
it uses none. -/
theorem covers_construct (C : ObjPtr) (T : Kind) (p : Addr) (c : ObjPtr) (v : Addr)
    (w w1 : World) (k : Nat)
    (hc : Covers C w ((if c = C then 1 else 0) + k))
    (h : ContainedExternal.construct T p c v w = some w1) : Covers C w1 k := by
  have hp : p ≠ nullptr := by
    intro hp; simp [ContainedExternal.construct, hp] at h
  have hfresh : w.mem p = none := by
    cases hm : w.mem p with
    | none => rfl
    | some x => simp [ContainedExternal.construct, hp, hm] at h
  rw [construct_spec T p c v w hp hfresh] at h
  have hw1 := (Option.some.inj h).symm
  have hrc : w1.rc = w.rc := by rw [hw1]
  have hframe : ∀ q, q ≠ p → w1.handleOn C q = w.handleOn C q := by
    intro q hq
    apply handleOn_congr
    rw [hw1]; exact update_other _ _ _ _ hq
  have hat : w1.handleOn C p = decide (c = C) := by
    rw [hw1]; simp [World.handleOn, update_same]
  intro ps hnd hall
  rw [hrc]
  by_cases hin : p ∈ ps
  · have hcC : c = C := by
      have := hall p hin
      rw [hat] at this
      exact of_decide_eq_true this
    have hnd2 : (ps.erase p).Nodup := hnd.erase p
    have hall2 : ∀ q ∈ ps.erase p, w.handleOn C q = true := by
      intro q hq
      have hqp : q ≠ p := fun he => (List.Nodup.not_mem_erase hnd) (he ▸ hq)
      rw [← hframe q hqp]
      exact hall q (List.mem_of_mem_erase hq)
    have hlen := hc (ps.erase p) hnd2 hall2
    rw [List.length_erase_of_mem hin] at hlen
    have hpos : 0 < ps.length := List.length_pos_of_mem hin
    simp only [hcC, if_true] at hlen
    omega
  · have hall2 : ∀ q ∈ ps, w.handleOn C q = true := by
      intro q hq
      have hqp : q ≠ p := fun he => hin (he ▸ hq)
      rw [← hframe q hqp]
      exact hall q hq
    have hlen := hc ps hnd hall2
    omega

/-- A finalization keeps the cover: it removes one handle and releases one
reference of that handle's container. -/
theorem covers_finalize (C : ObjPtr) (T : Kind) (p : Addr) (w w1 : World) (k : Nat)
    (hc : Covers C w k)
    (h : deletePointer (CType.contained T) p w = some w1) : Covers C w1 k := by
  by_cases hp : p = nullptr
  · simp [deletePointer, hp] at h
    rw [← h]; exact hc
  · obtain ⟨d, hd⟩ := holds_of_deletePointer T p w w1 hp h
    obtain ⟨w2, he, hrc, _, _, hpn, hdel, hfr⟩ := deletePointer_contained_spec T p d w hd
    have hw : w2 = w1 := by
      rw [h] at he; exact (Option.some.inj he).symm
    rw [hw] at hrc hpn hdel hfr
    intro ps hnd hall
    have hnot : p ∉ ps := by
      intro hin
      have := hall p hin
      rw [handleOn_mem_none w1 C p hpn] at this
      exact Bool.false_ne_true this
    have hall2 : ∀ q ∈ ps, w.handleOn C q = true := by
      intro q hq
      have hqp : q ≠ p := fun he => hnot (he ▸ hq)
      have hqv : q ≠ d.value ∨ d.value = nullptr := by
        by_cases hz : d.value = nullptr
        · exact Or.inr hz
        · left
          intro heq
          have := hall q hq
          rw [heq, handleOn_mem_none w1 C d.value (hdel hz)] at this
          exact Bool.false_ne_true this
      rw [← handleOn_congr w w1 C q (hfr q hqp hqv)]
      exact hall q hq
    by_cases hcC : d.container = C
    · have hpC : w.handleOn C p = true := hcC ▸ handleOn_of_mem w T p d hd.2.1
      have hnd2 : (p :: ps).Nodup := List.nodup_cons.mpr ⟨hnot, hnd⟩
      have hall3 : ∀ q ∈ p :: ps, w.handleOn C q = true := by
        intro q hq
        rcases List.mem_cons.mp hq with hq | hq
        · rw [hq]; exact hpC
        · exact hall2 q hq
      have hlen := hc (p :: ps) hnd2 hall3
      rw [hrc, ← hcC, update_same]
      rw [← hcC] at hlen
      simp only [List.length_cons] at hlen
      omega
    · have hlen := hc ps hnd hall2
      rw [hrc, update_other _ _ _ _ (Ne.symm hcC)]
      exact hlen

/-- A whole history keeps the cover when the spare references at the start pay
for its constructions on `C`. -/
theorem covers_run (C : ObjPtr) (ops : List Op) :
    ∀ (w w1 : World) (k : Nat), Covers C w (constructionsOn C ops + k) →
      run w ops = some w1 → Covers C w1 k := by
  induction ops with
  | nil =>
    intro w w1 k hc h
    simp only [run] at h
    rw [← Option.some.inj h]
    simpa [constructionsOn] using hc
  | cons op ops ih =>
    intro w w1 k hc h
    simp only [run] at h
    cases hs : Op.step w op with
    | none => simp [hs] at h
    | some wm =>
      rw [hs, Option.some_bind] at h
      cases op with
      | construct T p c v =>
        apply ih wm w1 k _ h
        apply covers_construct C T p c v w wm _ _ hs
        have : (if c = C then 1 else 0) + (constructionsOn C ops + k)
            = constructionsOn C (Op.construct T p c v :: ops) + k := by
          simp only [constructionsOn]; omega
        rw [this]; exact hc
      | finalize T p =>
        apply ih wm w1 k _ h
        exact covers_finalize C T p w wm _ hc hs

/-- The sample world has no contained handle at all. -/
theorem sampleWorld_no_handles (C : ObjPtr) (p : Addr) : sampleWorld.handleOn C p = false := by
  unfold World.handleOn sampleWorld
  by_cases h : p = 100 ∨ p = 101 <;> simp [h]

/-- C1, as stated, fails.  In the sample world object `8` has count `1`, held
by some other referent, and no contained handle.  Constructing two contained
handles on `8` leaves its count at `1`, below the two live handles; after the
first of them is finalized the count of `8` is `0` although the handle at
`201` on `8` is still live. -/
theorem containment_count_counterexample :
    (∀ p, sampleWorld.handleOn 8 p = false) ∧ sampleWorld.rc 8 = 1 ∧
    (∃ w2, run sampleWorld [Op.construct 0 200 8 100, Op.construct 0 201 8 101] = some w2 ∧
      w2.handleOn 8 200 = true ∧ w2.handleOn 8 201 = true ∧ w2.rc 8 = 1 ∧
      ¬ ([200, 201].length ≤ w2.rc 8)) ∧
    (∃ w3, run sampleWorld (sampleHistory 8) = some w3 ∧
      w3.handleOn 8 201 = true ∧ w3.rc 8 = 0 ∧ ¬ (0 < w3.rc 8)) := by
  refine ⟨sampleWorld_no_handles 8, by decide, ?_, ?_⟩
  · refine ⟨(run sampleWorld [Op.construct 0 200 8 100, Op.construct 0 201 8 101]).get
      (by decide), (Option.some_get _).symm, ?_, ?_, ?_, ?_⟩ <;> decide
  · refine ⟨(run sampleWorld (sampleHistory 8)).get (by decide), (Option.some_get _).symm,
      ?_, ?_, ?_⟩ <;> decide

/-- C1 (amended): take any history of contained-handle constructions and
finalizations that runs without undefined behaviour, from a state with no
contained handle on `C` in which the count of `C` is at least the number of
constructions on `C` in the history (the constructor acquires nothing: each
handle takes over a reference supplied by its creator).  At the end the count
of `C` is at least the number of live contained handles on `C` (the length of
any duplicate-free list of them), so while a contained handle on `C` is live
the count of `C` is positive. -/
theorem container_count_covers_live_handles (C : ObjPtr) (ops : List Op) (w w1 : World)
    (hstart : ∀ p, w.handleOn C p = false)
    (hfunded : constructionsOn C ops ≤ w.rc C)
    (hrun : run w ops = some w1) :
    (∀ ps : List Addr, ps.Nodup → (∀ p ∈ ps, w1.handleOn C p = true) →
      ps.length ≤ w1.rc C) ∧
    (∀ p, w1.handleOn C p = true → 0 < w1.rc C) := by
  have h0 : Covers C w (constructionsOn C ops + 0) := by
    intro ps _ hall
    cases ps with
    | nil => simpa using hfunded
    | cons q qs =>
      have := hall q (List.mem_cons_self q qs)
      rw [hstart q] at this
      exact absurd this Bool.false_ne_true
  have h1 : Covers C w1 0 := covers_run C ops w w1 0 h0 hrun
  constructor
  · intro ps hnd hall
    exact h1 ps hnd hall
  · intro p hp
    have := h1 [p] (List.nodup_singleton p) (by
      intro q hq
      rw [List.mem_singleton.mp hq]; exact hp)
    simpa using this

/-- Witness for C1 (amended): the sample history on object `7`, whose count
`2` pays for the two constructions; at the end the handle at `201` is live and
the count of `7` is `1`. -/
theorem container_count_covers_live_handles_witness :
    (∀ p, sampleWorld.handleOn 7 p = false) ∧
    constructionsOn 7 (sampleHistory 7) ≤ sampleWorld.rc 7 ∧
    ∃ w1, run sampleWorld (sampleHistory 7) = some w1 ∧
      w1.handleOn 7 201 = true ∧ w1.rc 7 = 1 ∧
      (∀ ps : List Addr, ps.Nodup → (∀ p ∈ ps, w1.handleOn 7 p = true) →
        ps.length ≤ w1.rc 7) ∧
      (∀ p, w1.handleOn 7 p = true → 0 < w1.rc 7) :=
  ⟨sampleWorld_no_handles 7, by decide,
    (run sampleWorld (sampleHistory 7)).get (by decide), (Option.some_get _).symm,
    by decide, by decide,
    container_count_covers_live_handles 7 (sampleHistory 7) sampleWorld _
      (sampleWorld_no_handles 7) (by decide) (Option.some_get _).symm⟩

end papyrus
